import Mathlib

/-
Verification development for the OCR web application (src/ocr.py, src/main.py,
src/models.py, src/schemas.py).

Embedding conventions:
  - Python strings are modeled as lists of characters (`PyStr`); `str.strip()`
    becomes `pyStrip`, `str.lower()` becomes `pyLower`, truthiness of a string
    becomes the test against `[]`.
  - Python floats (the coordinates reported by the PaddleOCR engine) are
    modeled as exact fractions `PyFloat` (integer numerator, natural
    denominator, not necessarily reduced); `int(f)` (truncation toward zero)
    becomes `pyInt`, `min`/`max` over a nonempty list become `pfMinList` /
    `pfMaxList`, and float subtraction becomes exact fraction subtraction.
  - Raised exceptions become `Except.error`; the external database session
    is a committed-row list `DBState` plus a `DBBehavior` flag saying whether
    `bulk_insert_mappings`/`commit` succeed or raise.
  - Filesystem reads are modeled by `FileModel` (what each external parser
    would see), together with an `IOEvent` trace of the filesystem accesses
    the code performs.
-/

/-- Python `str` as a list of characters. -/
abbrev PyStr := List Char

/-- Left part of Python `str.strip()`: drop leading whitespace. -/
def pyLStrip (s : PyStr) : PyStr := s.dropWhile Char.isWhitespace

/-- Right part of Python `str.strip()`: drop trailing whitespace. -/
def pyRStrip : PyStr → PyStr
  | [] => []
  | c :: rest =>
    match pyRStrip rest with
    | [] => if c.isWhitespace then [] else [c]
    | r => c :: r

/-- Python `str.strip()`: drop leading and trailing whitespace. -/
def pyStrip (s : PyStr) : PyStr := pyRStrip (pyLStrip s)

/-- Python `str.lower()`. -/
def pyLower (s : PyStr) : PyStr := s.map Char.toLower

/-- Python float, modeled as an exact (not necessarily reduced) fraction.
The denominator is expected to be positive; theorems carry that hypothesis. -/
structure PyFloat where
  num : Int
  den : Nat
deriving DecidableEq, Repr

/-- Rational value of a `PyFloat`. -/
def toRat (f : PyFloat) : ℚ := (f.num : ℚ) / (f.den : ℚ)

/-- Python `int(f)` on a float: truncation toward zero. -/
def pyInt (f : PyFloat) : Int := Int.sign f.num * (f.num.natAbs / f.den : ℕ)

/-- Python `a < b` on floats (exact comparison; cross-multiplied form). -/
def pfLt (a b : PyFloat) : Bool := a.num * (b.den : Int) < b.num * (a.den : Int)

/-- Python `a == b` on floats (exact value comparison). -/
def pfEq (a b : PyFloat) : Bool := a.num * (b.den : Int) == b.num * (a.den : Int)

/-- Python `f - z` for a float `f` and an int `z` (exact). -/
def pfSubInt (a : PyFloat) (z : Int) : PyFloat := ⟨a.num - z * (a.den : Int), a.den⟩

/-- Python `min` over the nonempty list `x :: l` (keeps the earliest minimum). -/
def pfMinList (x : PyFloat) (l : List PyFloat) : PyFloat :=
  l.foldl (fun acc y => if pfLt y acc then y else acc) x

/-- Python `max` over the nonempty list `x :: l` (keeps the earliest maximum). -/
def pfMaxList (x : PyFloat) (l : List PyFloat) : PyFloat :=
  l.foldl (fun acc y => if pfLt acc y then y else acc) x

/-- One entry of `data["conf"]` in the pytesseract dictionary output:
either the sentinel string `"-1"` (unknown confidence) or an entry whose
`float(...)` parse is the numeric value `q`.  The adapter compares the raw
entry against the string `"-1"` before parsing. -/
inductive ConfEntry where
  | sentinel
  | val (q : ℚ)
deriving DecidableEq

/-- Embedding of `float(data["conf"][i]) if data["conf"][i] != "-1" else None`
from `_ocr_tesseract` (src/ocr.py line 111). -/
def parseConf : ConfEntry → Option ℚ
  | ConfEntry.sentinel => none
  | ConfEntry.val q => some q

/-- One per-detection dictionary built by an OCR adapter
(`line_number`, `line_text`, `confidence`, `x`, `y`, `width`, `height`). -/
structure RowFrag where
  line_number : Nat
  line_text : PyStr
  confidence : Option ℚ
  x : Int
  y : Int
  width : Int
  height : Int
deriving DecidableEq, Repr

/-- The parallel arrays returned by `pytesseract.image_to_data(..., Output.DICT)`:
entry `i` of each array describes detection `i`.  The engine guarantees the
arrays have equal length `n`, which the embedding represents by indexing all
of them by `Fin n`. -/
structure TessData (n : Nat) where
  text : Fin n → PyStr
  conf : Fin n → ConfEntry
  left : Fin n → Int
  top : Fin n → Int
  width : Fin n → Int
  height : Fin n → Int

/-- Embedding of `_ocr_tesseract` (src/ocr.py lines 102-117): for each index
`i` in range, strip the text; if it is non-empty (Python truthiness) append a
result dictionary built from the parallel arrays at `i`. -/
def _ocr_tesseract {n : Nat} (d : TessData n) : List RowFrag :=
  (List.finRange n).filterMap fun i =>
    let text := pyStrip (d.text i)
    if text = [] then none
    else some ⟨i.1, text, parseConf (d.conf i), d.left i, d.top i, d.width i, d.height i⟩

/-- One element of `result[0]` in `_ocr_paddle`: either a well-formed
`(box, (text, confidence))` tuple or a tuple that fails to unpack
(`except` branch: logged and skipped). -/
inductive PaddleLine where
  | det (box : List (PyFloat × PyFloat)) (text : PyStr) (confidence : ℚ)
  | malformed
deriving DecidableEq

/-- Loop body of `_ocr_paddle` (src/ocr.py lines 130-152), with `i` the
`enumerate` index.  Malformed tuples are skipped; empty text is skipped;
for a kept detection `min`/`max` over an empty coordinate list would raise
`ValueError` (modeled by `Except.error ()`); otherwise the bounding box is
`x = int(min(xs))`, `y = int(min(ys))`, `w = int(max(xs) - x)`,
`h = int(max(ys) - y)` and the row is appended. -/
def paddleGo : Nat → List PaddleLine → Except Unit (List RowFrag)
  | _, [] => Except.ok []
  | i, PaddleLine.malformed :: rest => paddleGo (i + 1) rest
  | i, PaddleLine.det box text confidence :: rest =>
    if text = [] then paddleGo (i + 1) rest
    else
      match box with
      | [] => Except.error ()
      | p :: ps =>
        let x := pyInt (pfMinList p.1 (ps.map Prod.fst))
        let y := pyInt (pfMinList p.2 (ps.map Prod.snd))
        let w := pyInt (pfSubInt (pfMaxList p.1 (ps.map Prod.fst)) x)
        let h := pyInt (pfSubInt (pfMaxList p.2 (ps.map Prod.snd)) y)
        match paddleGo (i + 1) rest with
        | Except.error e => Except.error e
        | Except.ok tail => Except.ok (⟨i, text, some confidence, x, y, w, h⟩ :: tail)

/-- Embedding of `_ocr_paddle` (src/ocr.py lines 122-152).  The early return
for `not result or not result[0]` coincides with running the loop on the
empty list, so the input is the (possibly empty) list of detection tuples. -/
def _ocr_paddle (lines : List PaddleLine) : Except Unit (List RowFrag) := paddleGo 0 lines

/-- Filesystem accesses performed by `_images_from_file`:
`statFile` is the `os.path.exists` check; `openPdf` is `convert_from_path`;
`openTiff` is `Image.open` plus frame reads. -/
inductive IOEvent where
  | statFile
  | openPdf
  | openTiff
deriving DecidableEq, Repr

/-- Failures of `_images_from_file`: `FileNotFoundError`, the
`RuntimeError("No pages extracted from PDF.")`, and the
`ValueError("Unsupported file format...")`. -/
inductive ExtractErr where
  | fileNotFound
  | noPdfPages
  | unsupportedFormat
deriving DecidableEq, Repr

/-- What the filesystem and the external parsers would deliver for one input
path: whether the path exists, the page images `convert_from_path` would
return if invoked, and the frames `Image.open` would expose if invoked. -/
structure FileModel (Img : Type) where
  path : PyStr
  fileExists : Bool
  pdfPages : List Img
  tiffFrames : List Img

/-- Basename of a (posix, already absolute) path: the part after the last `/`. -/
def basenameOf (p : PyStr) : PyStr := (p.reverse.takeWhile (fun c => c != '/')).reverse

/-- Embedding of `os.path.splitext(p)[1]` (posix rules): the extension is the
suffix of the basename starting at its last dot, provided some character of
the basename before that dot is not itself a dot (leading dots do not start
an extension); otherwise the empty string. -/
def extOf (p : PyStr) : PyStr :=
  if (((basenameOf p).dropWhile (fun c => c == '.')).any (fun c => c == '.')) then
    '.' :: ((((basenameOf p).dropWhile (fun c => c == '.')).reverse.takeWhile
      (fun c => c != '.')).reverse)
  else []

/-- Embedding of `os.path.splitext(abs_path)[1].lower()` (src/ocr.py line 72). -/
def extLower (p : PyStr) : PyStr := pyLower (extOf p)

/-- TIFF frame loop of `_images_from_file` (src/ocr.py lines 84-92):
`im.seek(i)` succeeds exactly for `i` below the frame count and raises
`EOFError` at the end, which the `except EOFError: pass` treats as normal
termination; so the `while True` loop visits the frames in order, appending
`(i + 1, frame.convert("RGB"))`.  Embedded as structural recursion over the
remaining frames with the running 0-based index `i`. -/
def tiffGo {Img : Type} (rgb : Img → Img) : Nat → List Img → List (Nat × Img)
  | _, [] => []
  | i, im :: rest => (i + 1, rgb im) :: tiffGo rgb (i + 1) rest

/-- Embedding of `_images_from_file` (src/ocr.py lines 66-97).  `rgb` is the
external `convert("RGB")` operation.  The function first stats the path
(`os.path.exists`, raising `FileNotFoundError` for a missing file), then
dispatches on the lowercased extension: `.pdf` renders pages (raising if zero
pages were produced) and re-numbers them 1-based; `.tif`/`.tiff` runs the
frame loop; anything else raises the unsupported-format `ValueError`.
The second component records the filesystem accesses in order. -/
def imagesFromFile {Img : Type} (rgb : Img → Img) (f : FileModel Img) :
    Except ExtractErr (List (Nat × Img)) × List IOEvent :=
  if f.fileExists = false then
    (Except.error ExtractErr.fileNotFound, [IOEvent.statFile])
  else
    let ext := extLower f.path
    if ext = ".pdf".toList then
      match f.pdfPages with
      | [] => (Except.error ExtractErr.noPdfPages, [IOEvent.statFile, IOEvent.openPdf])
      | pages =>
        (Except.ok (pages.enum.map (fun pr => (pr.1 + 1, rgb pr.2))),
          [IOEvent.statFile, IOEvent.openPdf])
    else if ext = ".tif".toList ∨ ext = ".tiff".toList then
      (Except.ok (tiffGo rgb 0 f.tiffFrames), [IOEvent.statFile, IOEvent.openTiff])
    else
      (Except.error ExtractErr.unsupportedFormat, [IOEvent.statFile])

/-- A `RowFrag` after `r.update({"file_name": ..., "page_number": ...})`
in `run_ocr_on_file` (src/ocr.py lines 170-174). -/
structure TaggedRow extends RowFrag where
  file_name : PyStr
  page_number : Nat
deriving DecidableEq

/-- One persisted `ocr_results` row (src/models.py).  The mapped columns are
`file_name`, `page_number`, `line_number`, `line_text`, `x`, `y`, `width`,
`height` (plus an auto id and a server-assigned `processed_at`, omitted);
`confidence` is not a mapped column. -/
structure OCRResultRow where
  file_name : PyStr
  page_number : Nat
  line_number : Nat
  line_text : PyStr
  x : Int
  y : Int
  width : Int
  height : Int
deriving DecidableEq, Repr

/-- Projection applied by `bulk_insert_mappings(OCRResult, ...)`: the insert
parameters are the intersection of the dictionary keys with the mapped
columns, so the unmapped `confidence` key is dropped. -/
def toDbRow (t : TaggedRow) : OCRResultRow :=
  ⟨t.file_name, t.page_number, t.line_number, t.line_text, t.x, t.y, t.width, t.height⟩

/-- The `r.update({...})` loop: tag every row of one page with the original
file name and the page number. -/
def tagRows (name : PyStr) (page : Nat) (rows : List RowFrag) : List TaggedRow :=
  rows.map fun r => ⟨r, name, page⟩

/-- The `SupportedEngine` enum of src/ocr.py. -/
inductive SupportedEngine where
  | tesseract
  | paddle
deriving DecidableEq

/-- Engine dispatch in the per-page loop (src/ocr.py lines 163-166):
`_ocr_tesseract(image)` when the selected engine is tesseract, else
`_ocr_paddle(image)`.  `tessCall`/`paddleCall` are the full external engine
invocations for one image (the engine library may raise, hence `Except`,
carrying the exception message). -/
def runPage {Img : Type} (tessCall paddleCall : Img → Except PyStr (List RowFrag))
    (engine : SupportedEngine) (im : Img) : Except PyStr (List RowFrag) :=
  if engine = SupportedEngine.tesseract then tessCall im else paddleCall im

/-- Failures raised by `run_ocr_on_file`: a propagated `_images_from_file`
exception, the page-wrapping `RuntimeError(f"OCR failed on page {p}: {e}")`,
or the re-raised database exception. -/
inductive RunErr where
  | extract (e : ExtractErr)
  | ocrFailed (page : Nat) (msg : PyStr)
  | dbError
deriving DecidableEq

/-- The per-page loop of `run_ocr_on_file` (src/ocr.py lines 161-177): OCR
each page in order; a raising adapter call is wrapped with the failing page
number and aborts the loop; otherwise the page's rows are tagged and appended
to `all_results`. -/
def aggregatePages {Img : Type} (call : Img → Except PyStr (List RowFrag)) (name : PyStr) :
    List (Nat × Img) → Except RunErr (List TaggedRow)
  | [] => Except.ok []
  | (page, im) :: rest =>
    match call im with
    | Except.error e => Except.error (RunErr.ocrFailed page e)
    | Except.ok rows =>
      match aggregatePages call name rest with
      | Except.error e => Except.error e
      | Except.ok tail => Except.ok (tagRows name page rows ++ tail)

/-- Committed contents of the `ocr_results` table. -/
structure DBState where
  committed : List OCRResultRow
deriving DecidableEq

/-- Outcome of the external `bulk_insert_mappings` + `commit` pair:
both succeed, the insert raises, or the commit raises. -/
inductive DBBehavior where
  | ok
  | insertRaises
  | commitRaises
deriving DecidableEq

/-- Embedding of `run_ocr_on_file` (src/ocr.py lines 157-191): extract the
page images, run the per-page OCR loop, then — only if a database session was
passed and `all_results` is non-empty — insert the whole batch in one bulk
operation and commit; on an insert/commit exception roll back (leaving the
committed state unchanged) and re-raise.  Returns `(inserted, page count)`
paired with the resulting database state. -/
def run_ocr_on_file {Img : Type} (rgb : Img → Img) (f : FileModel Img)
    (tessCall paddleCall : Img → Except PyStr (List RowFrag))
    (engine : SupportedEngine) (original_name : PyStr)
    (hasDb : Bool) (b : DBBehavior) (st : DBState) :
    Except RunErr (Nat × Nat) × DBState :=
  match (imagesFromFile rgb f).1 with
  | Except.error e => (Except.error (RunErr.extract e), st)
  | Except.ok images =>
    match aggregatePages (runPage tessCall paddleCall engine) original_name images with
    | Except.error e => (Except.error e, st)
    | Except.ok all_results =>
      if hasDb = true ∧ all_results ≠ [] then
        match b with
        | DBBehavior.ok =>
          (Except.ok (all_results.length, images.length),
            ⟨st.committed ++ all_results.map toDbRow⟩)
        | DBBehavior.insertRaises => (Except.error RunErr.dbError, st)
        | DBBehavior.commitRaises => (Except.error RunErr.dbError, st)
      else (Except.ok (0, images.length), st)

/-- The MIME allow-list of `upload_and_process` (src/main.py line 60). -/
def acceptedContentTypes : List PyStr :=
  ["application/pdf".toList, "image/tiff".toList, "image/tif".toList, "image/x-tiff".toList]

/-- MIME gate of `upload_and_process`: anything not in the set is rejected
with HTTP 415 before further processing. -/
def mimeAccepted (ct : PyStr) : Bool := acceptedContentTypes.contains ct

/-- Temp-file extension choice of `upload_and_process` (src/main.py line 65):
`".pdf" if file.filename.lower().endswith(".pdf") else ".tiff"`. -/
def chooseTempExt (filename : PyStr) : PyStr :=
  if ".pdf".toList.isSuffixOf (pyLower filename) then ".pdf".toList else ".tiff".toList

/-- The `ORDER BY page_number, line_number` key of `get_results`
(src/main.py line 134), as a relation. -/
def pageLineLe (a b : OCRResultRow) : Prop :=
  a.page_number < b.page_number ∨
    (a.page_number = b.page_number ∧ a.line_number ≤ b.line_number)

instance : DecidableRel pageLineLe := fun a b =>
  inferInstanceAs (Decidable (a.page_number < b.page_number ∨
    (a.page_number = b.page_number ∧ a.line_number ≤ b.line_number)))

instance : IsTotal OCRResultRow pageLineLe :=
  ⟨fun a b => by unfold pageLineLe; omega⟩

instance : IsTrans OCRResultRow pageLineLe :=
  ⟨fun a b c hab hbc => by unfold pageLineLe at hab hbc ⊢; omega⟩

/-- The WHERE clause built by `get_results` (src/main.py lines 129-131):
always filter by `file_name`; additionally filter by `page_number` only when
the query parameter is truthy (`if page_number:` — both `None` and `0` skip
the filter; FastAPI validation keeps `0` out in practice). -/
def rowMatches (file_name : PyStr) (page_number : Option Nat) (r : OCRResultRow) : Bool :=
  (r.file_name == file_name) &&
    match page_number with
    | none => true
    | some p => if p = 0 then true else r.page_number == p

/-- Embedding of `get_results` (src/main.py lines 121-139): `total` counts all
rows matching the filter; the items are the matching rows ordered by
`(page_number, line_number)`, with the SQL `LIMIT limit OFFSET offset`
applied (the offset is applied before the limit, regardless of the
SQLAlchemy call order `.limit(limit).offset(offset)`). -/
def get_results (db : List OCRResultRow) (file_name : PyStr) (page_number : Option Nat)
    (limit offset : Nat) : Nat × List OCRResultRow :=
  let base := db.filter (rowMatches file_name page_number)
  let total := base.length
  let items := ((List.insertionSort pageLineLe base).drop offset).take limit
  (total, items)

/-- Filter predicate as the spec words it ("file name (required), optional
page number filter"): match the file name, and the page number whenever the
query supplies one.  Kept separate from `rowMatches` (which reproduces the
code's truthiness test) so the two can be compared. -/
def specMatches (file_name : PyStr) (page_number : Option Nat) (r : OCRResultRow) : Bool :=
  (r.file_name == file_name) &&
    match page_number with
    | none => true
    | some p => r.page_number == p

deriving instance DecidableEq for Except

/-- Sample engine output for the layout engine: one detection with text "hi",
unknown confidence, box (1, 2, 3, 4). -/
def sampleTess : TessData 1 :=
  ⟨fun _ => ['h', 'i'], fun _ => ConfEntry.sentinel,
   fun _ => 1, fun _ => 2, fun _ => 3, fun _ => 4⟩

/-- The row `_ocr_tesseract` produces on `sampleTess`. -/
def sampleTessRow : RowFrag := ⟨0, ['h', 'i'], none, 1, 2, 3, 4⟩

/-- A detector-recognizer detection whose recognized text is a single space
(truthy in Python, empty after stripping), on the unit square. -/
def wsLine : PaddleLine :=
  PaddleLine.det [(⟨0, 1⟩, ⟨0, 1⟩), (⟨1, 1⟩, ⟨0, 1⟩), (⟨1, 1⟩, ⟨1, 1⟩), (⟨0, 1⟩, ⟨1, 1⟩)]
    [' '] 1

/-- The row `_ocr_paddle` produces on `wsLine`. -/
def wsRow : RowFrag := ⟨0, [' '], some 1, 0, 0, 1, 1⟩

/-- A detector-recognizer detection whose polygon has the two distinct
x-coordinates 1/2 and 3/4, both inside the unit interval. -/
def cex4Line : PaddleLine :=
  PaddleLine.det [(⟨1, 2⟩, ⟨0, 1⟩), (⟨3, 4⟩, ⟨1, 1⟩)] ['a'] 1

/-- The row `_ocr_paddle` produces on `cex4Line`: truncation makes the
width 0 although the xs differ. -/
def cex4Row : RowFrag := ⟨0, ['a'], some 1, 0, 0, 0, 1⟩

/-- A detector-recognizer detection with a one-point box and text "a". -/
def detLineA : PaddleLine := PaddleLine.det [(⟨0, 1⟩, ⟨0, 1⟩)] ['a'] 1

/-- The row `_ocr_paddle` produces on `detLineA`. -/
def detRowA : RowFrag := ⟨0, ['a'], some 1, 0, 0, 0, 0⟩

/-- An existing one-frame TIFF file. -/
def imgFileTiff : FileModel Nat := ⟨"a.tiff".toList, true, [], [7]⟩

/-- An existing two-frame TIFF file with extension ".tif". -/
def imgFileTiff2 : FileModel Nat := ⟨"b.tif".toList, true, [], [5, 9]⟩

/-- An existing two-frame TIFF file. -/
def imgFileTiffTwo : FileModel Nat := ⟨"c.tiff".toList, true, [], [7, 8]⟩

/-- A nonexistent path with an unsupported extension. -/
def pngMissing : FileModel Nat := ⟨"missing.png".toList, false, [], []⟩

/-- An existing path with an unsupported extension. -/
def pngExists : FileModel Nat := ⟨"a.png".toList, true, [], []⟩

/-- A tesseract invocation returning one detection on every page. -/
def tessOkCall : Nat → Except PyStr (List RowFrag) :=
  fun _ => Except.ok [⟨0, ['h', 'i'], none, 1, 2, 3, 4⟩]

/-- A tesseract invocation raising on image 8 and detecting nothing elsewhere. -/
def tessFailCall : Nat → Except PyStr (List RowFrag) :=
  fun im => if im = 8 then Except.error ['b', 'o', 'o', 'm'] else Except.ok []

/-- A paddle invocation detecting nothing. -/
def paddleNoCall : Nat → Except PyStr (List RowFrag) := fun _ => Except.ok []

/-- A sample table with two files: "a" has pages 2 and 1, "b" has page 1. -/
def dbSample : List OCRResultRow :=
  [⟨['a'], 2, 0, ['y'], 0, 0, 0, 0⟩, ⟨['a'], 1, 0, ['x'], 0, 0, 0, 0⟩,
   ⟨['b'], 1, 0, ['z'], 0, 0, 0, 0⟩]

/-! Helper lemmas about the Python string model. -/

lemma dropWhile_dropWhile {α : Type} (p : α → Bool) (l : List α) :
    (l.dropWhile p).dropWhile p = l.dropWhile p := by
  induction l with
  | nil => rfl
  | cons a t ih =>
    by_cases h : p a
    · simp [List.dropWhile_cons, h, ih]
    · simp [List.dropWhile_cons, h]

lemma pyLStrip_idem (s : PyStr) : pyLStrip (pyLStrip s) = pyLStrip s :=
  dropWhile_dropWhile _ s

lemma pyRStrip_cons (c : Char) (t : PyStr) :
    pyRStrip (c :: t) =
      match pyRStrip t with
      | [] => if c.isWhitespace then [] else [c]
      | r => c :: r := rfl

lemma pyRStrip_idem (s : PyStr) : pyRStrip (pyRStrip s) = pyRStrip s := by
  induction s with
  | nil => rfl
  | cons c t ih =>
    cases h : pyRStrip t with
    | nil => by_cases hw : c.isWhitespace <;> simp [pyRStrip, h, hw]
    | cons r rs =>
      have ih2 : pyRStrip (r :: rs) = r :: rs := h ▸ ih
      have hct : pyRStrip (c :: t) = c :: r :: rs := by rw [pyRStrip_cons, h]
      rw [hct, pyRStrip_cons, ih2]

lemma length_dropWhile_le {α : Type} (p : α → Bool) (l : List α) :
    (l.dropWhile p).length ≤ l.length := by
  induction l with
  | nil => simp
  | cons a t ih =>
    by_cases h : p a
    · simp only [List.dropWhile_cons, h, if_true, List.length_cons]
      omega
    · simp [List.dropWhile_cons, h]

lemma head_not_ws_of_lstrip_self {c : Char} {t : PyStr} (h : pyLStrip (c :: t) = c :: t) :
    c.isWhitespace = false := by
  by_cases hw : c.isWhitespace
  · exfalso
    rw [pyLStrip, List.dropWhile_cons, if_pos hw] at h
    have h1 : (List.dropWhile Char.isWhitespace t).length ≤ t.length :=
      length_dropWhile_le _ _
    have h2 := congrArg List.length h
    simp at h2
    omega
  · simpa using hw

lemma pyLStrip_pyRStrip {s : PyStr} (h : pyLStrip s = s) :
    pyLStrip (pyRStrip s) = pyRStrip s := by
  cases s with
  | nil => rfl
  | cons c t =>
    have hw : c.isWhitespace = false := head_not_ws_of_lstrip_self h
    rw [pyRStrip]
    cases h2 : pyRStrip t with
    | nil => simp [hw, pyLStrip, List.dropWhile_cons]
    | cons r rs => simp [pyLStrip, List.dropWhile_cons, hw]

lemma pyStrip_idem (s : PyStr) : pyStrip (pyStrip s) = pyStrip s := by
  rw [pyStrip, pyStrip, pyLStrip_pyRStrip (pyLStrip_idem s), pyRStrip_idem]

/-! Helper lemmas about the Python float model. -/

lemma pfLt_iff {a b : PyFloat} (ha : 0 < a.den) (hb : 0 < b.den) :
    pfLt a b = true ↔ toRat a < toRat b := by
  have ha' : (0 : ℚ) < (a.den : ℚ) := by exact_mod_cast ha
  have hb' : (0 : ℚ) < (b.den : ℚ) := by exact_mod_cast hb
  rw [pfLt, toRat, toRat, div_lt_div_iff₀ ha' hb', decide_eq_true_eq]
  constructor
  · intro h
    exact_mod_cast h
  · intro h
    exact_mod_cast h

lemma floor_toRat (f : PyFloat) : ⌊toRat f⌋ = f.num / (f.den : Int) := by
  rw [toRat]
  exact_mod_cast Rat.floor_intCast_div_natCast f.num f.den

lemma pyInt_eq_floor {f : PyFloat} (hn : 0 ≤ f.num) : pyInt f = ⌊toRat f⌋ := by
  rw [floor_toRat, pyInt]
  obtain ⟨n, hn2⟩ := Int.eq_ofNat_of_zero_le hn
  rw [hn2]
  cases n with
  | zero => simp
  | succ m =>
    rw [Int.sign_eq_one_of_pos (by omega), one_mul, Int.natAbs_ofNat]
    exact Int.ofNat_ediv _ _

lemma pyInt_neg_num (f : PyFloat) : pyInt ⟨-f.num, f.den⟩ = -pyInt f := by
  rw [pyInt, pyInt]
  simp only [Int.sign_neg, Int.natAbs_neg]
  ring

lemma toRat_neg_num (f : PyFloat) : toRat ⟨-f.num, f.den⟩ = -toRat f := by
  rw [toRat, toRat]
  push_cast
  ring

lemma pyInt_eq_ceil {f : PyFloat} (hn : f.num < 0) : pyInt f = ⌈toRat f⌉ := by
  have h1 : pyInt ⟨-f.num, f.den⟩ = ⌊toRat ⟨-f.num, f.den⟩⌋ :=
    pyInt_eq_floor (by show (0 : Int) ≤ -f.num; omega)
  rw [toRat_neg_num] at h1
  have h2 : pyInt ⟨-f.num, f.den⟩ = -pyInt f := pyInt_neg_num f
  have h3 : ⌈toRat f⌉ = -⌊-toRat f⌋ := by rw [← Int.ceil_neg, neg_neg]
  rw [h3, ← h1, h2]
  simp

lemma pyInt_nonneg_of_num_nonneg {f : PyFloat} (hn : 0 ≤ f.num) : 0 ≤ pyInt f := by
  rw [pyInt]
  exact mul_nonneg (Int.sign_nonneg.mpr hn) (Int.natCast_nonneg _)

lemma toRat_sub_int {f : PyFloat} (hd : 0 < f.den) (z : Int) :
    toRat (pfSubInt f z) = toRat f - (z : ℚ) := by
  have hd' : ((f.den : ℚ)) ≠ 0 := by
    exact_mod_cast Nat.pos_iff_ne_zero.mp hd
  rw [pfSubInt, toRat, toRat]
  push_cast
  field_simp
  ring

lemma pyInt_nonneg_of_neg_one_lt {f : PyFloat} (h : (-1 : ℚ) < toRat f) :
    0 ≤ pyInt f := by
  by_cases hn : 0 ≤ f.num
  · exact pyInt_nonneg_of_num_nonneg hn
  · push_neg at hn
    rw [pyInt_eq_ceil hn]
    have h2 : (-1 : Int) < ⌈toRat f⌉ := by
      rw [Int.lt_ceil]
      exact_mod_cast h
    omega

lemma pfMinList_mem (x : PyFloat) (l : List PyFloat) :
    pfMinList x l = x ∨ pfMinList x l ∈ l := by
  induction l generalizing x with
  | nil => exact Or.inl rfl
  | cons a t ih =>
    rw [pfMinList, List.foldl_cons]
    rcases ih (if pfLt a x then a else x) with h | h
    · rw [pfMinList] at h
      rw [h]
      by_cases hlt : pfLt a x
      · rw [if_pos hlt]
        exact Or.inr (List.mem_cons_self _ _)
      · rw [if_neg hlt]
        exact Or.inl rfl
    · rw [pfMinList] at h
      exact Or.inr (List.mem_cons_of_mem _ h)

lemma pfMaxList_mem (x : PyFloat) (l : List PyFloat) :
    pfMaxList x l = x ∨ pfMaxList x l ∈ l := by
  induction l generalizing x with
  | nil => exact Or.inl rfl
  | cons a t ih =>
    rw [pfMaxList, List.foldl_cons]
    rcases ih (if pfLt x a then a else x) with h | h
    · rw [pfMaxList] at h
      rw [h]
      by_cases hlt : pfLt x a
      · rw [if_pos hlt]
        exact Or.inr (List.mem_cons_self _ _)
      · rw [if_neg hlt]
        exact Or.inl rfl
    · rw [pfMaxList] at h
      exact Or.inr (List.mem_cons_of_mem _ h)

lemma toRat_pfMinList_le (x : PyFloat) (l : List PyFloat) (hx : 0 < x.den)
    (hl : ∀ y ∈ l, 0 < y.den) :
    toRat (pfMinList x l) ≤ toRat x ∧ ∀ y ∈ l, toRat (pfMinList x l) ≤ toRat y := by
  induction l generalizing x with
  | nil => exact ⟨le_refl _, by simp⟩
  | cons a t ih =>
    have ha : 0 < a.den := hl a (List.mem_cons_self _ _)
    have ht : ∀ y ∈ t, 0 < y.den := fun y hy => hl y (List.mem_cons_of_mem _ hy)
    rw [pfMinList, List.foldl_cons]
    by_cases hlt : pfLt a x
    · have hax : toRat a < toRat x := (pfLt_iff ha hx).mp hlt
      rw [if_pos hlt]
      obtain ⟨h1, h2⟩ := ih a ha ht
      rw [pfMinList] at h1 h2
      refine ⟨le_trans h1 (le_of_lt hax), ?_⟩
      intro y hy
      rcases List.mem_cons.mp hy with rfl | hy
      · exact h1
      · exact h2 y hy
    · have hax : toRat x ≤ toRat a := by
        by_contra hc
        push_neg at hc
        exact hlt ((pfLt_iff ha hx).mpr hc)
      rw [if_neg hlt]
      obtain ⟨h1, h2⟩ := ih x hx ht
      rw [pfMinList] at h1 h2
      refine ⟨h1, ?_⟩
      intro y hy
      rcases List.mem_cons.mp hy with rfl | hy
      · exact le_trans h1 hax
      · exact h2 y hy

lemma toRat_le_pfMaxList (x : PyFloat) (l : List PyFloat) (hx : 0 < x.den)
    (hl : ∀ y ∈ l, 0 < y.den) :
    toRat x ≤ toRat (pfMaxList x l) ∧ ∀ y ∈ l, toRat y ≤ toRat (pfMaxList x l) := by
  induction l generalizing x with
  | nil => exact ⟨le_refl _, by simp⟩
  | cons a t ih =>
    have ha : 0 < a.den := hl a (List.mem_cons_self _ _)
    have ht : ∀ y ∈ t, 0 < y.den := fun y hy => hl y (List.mem_cons_of_mem _ hy)
    rw [pfMaxList, List.foldl_cons]
    by_cases hlt : pfLt x a
    · have hax : toRat x < toRat a := (pfLt_iff hx ha).mp hlt
      rw [if_pos hlt]
      obtain ⟨h1, h2⟩ := ih a ha ht
      rw [pfMaxList] at h1 h2
      refine ⟨le_trans (le_of_lt hax) h1, ?_⟩
      intro y hy
      rcases List.mem_cons.mp hy with rfl | hy
      · exact h1
      · exact h2 y hy
    · have hax : toRat a ≤ toRat x := by
        by_contra hc
        push_neg at hc
        exact hlt ((pfLt_iff hx ha).mpr hc)
      rw [if_neg hlt]
      obtain ⟨h1, h2⟩ := ih x hx ht
      rw [pfMaxList] at h1 h2
      refine ⟨h1, ?_⟩
      intro y hy
      rcases List.mem_cons.mp hy with rfl | hy
      · exact le_trans hax h1
      · exact h2 y hy

lemma paddle_side_nonneg (x0 : PyFloat) (l : List PyFloat) (hx : 0 < x0.den)
    (hl : ∀ y ∈ l, 0 < y.den) :
    0 ≤ pyInt (pfSubInt (pfMaxList x0 l) (pyInt (pfMinList x0 l))) := by
  have hmden : 0 < (pfMinList x0 l).den := by
    rcases pfMinList_mem x0 l with h | h
    · rw [h]; exact hx
    · exact hl _ h
  have hMden : 0 < (pfMaxList x0 l).den := by
    rcases pfMaxList_mem x0 l with h | h
    · rw [h]; exact hx
    · exact hl _ h
  have hmM : toRat (pfMinList x0 l) ≤ toRat (pfMaxList x0 l) :=
    le_trans (toRat_pfMinList_le x0 l hx hl).1 (toRat_le_pfMaxList x0 l hx hl).1
  apply pyInt_nonneg_of_neg_one_lt
  rw [toRat_sub_int hMden]
  by_cases hn : 0 ≤ (pfMinList x0 l).num
  · rw [pyInt_eq_floor hn]
    have h2 : ((⌊toRat (pfMinList x0 l)⌋ : ℚ)) ≤ toRat (pfMinList x0 l) :=
      Int.floor_le _
    linarith
  · push_neg at hn
    rw [pyInt_eq_ceil hn]
    have h2 : ((⌈toRat (pfMinList x0 l)⌉ : ℚ)) < toRat (pfMinList x0 l) + 1 :=
      Int.ceil_lt_add_one _
    linarith

/-! Characterization of the adapter outputs. -/

lemma tesseract_mem {n : Nat} {d : TessData n} {row : RowFrag}
    (h : row ∈ _ocr_tesseract d) :
    ∃ i : Fin n, pyStrip (d.text i) ≠ [] ∧
      row = ⟨i.1, pyStrip (d.text i), parseConf (d.conf i),
        d.left i, d.top i, d.width i, d.height i⟩ := by
  rw [_ocr_tesseract, List.mem_filterMap] at h
  obtain ⟨i, _, hf⟩ := h
  dsimp only at hf
  by_cases ht : pyStrip (d.text i) = []
  · rw [if_pos ht] at hf
    exact absurd hf (by simp)
  · rw [if_neg ht] at hf
    exact ⟨i, ht, (Option.some.inj hf).symm⟩

lemma paddleGo_rows (lines : List PaddleLine) :
    ∀ (i : Nat) (rows : List RowFrag), paddleGo i lines = Except.ok rows →
    ∀ row ∈ rows, ∃ box text conf p ps,
      PaddleLine.det box text conf ∈ lines ∧ box = p :: ps ∧ text ≠ [] ∧
      row.line_text = text ∧ row.confidence = some conf ∧
      row.x = pyInt (pfMinList p.1 (ps.map Prod.fst)) ∧
      row.y = pyInt (pfMinList p.2 (ps.map Prod.snd)) ∧
      row.width = pyInt (pfSubInt (pfMaxList p.1 (ps.map Prod.fst))
        (pyInt (pfMinList p.1 (ps.map Prod.fst)))) ∧
      row.height = pyInt (pfSubInt (pfMaxList p.2 (ps.map Prod.snd))
        (pyInt (pfMinList p.2 (ps.map Prod.snd)))) := by
  induction lines with
  | nil =>
    intro i rows h row hrow
    rw [paddleGo] at h
    injection h with h
    subst h
    simp at hrow
  | cons line rest ih =>
    intro i rows h row hrow
    cases line with
    | malformed =>
      rw [paddleGo] at h
      obtain ⟨box, text, conf, p, ps, hmem, hrest⟩ := ih (i + 1) rows h row hrow
      exact ⟨box, text, conf, p, ps, List.mem_cons_of_mem _ hmem, hrest⟩
    | det box text conf =>
      cases box with
      | nil =>
        rw [paddleGo] at h
        by_cases ht : text = []
        · rw [if_pos ht] at h
          obtain ⟨box2, text2, conf2, p, ps, hmem, hrest⟩ := ih (i + 1) rows h row hrow
          exact ⟨box2, text2, conf2, p, ps, List.mem_cons_of_mem _ hmem, hrest⟩
        · rw [if_neg ht] at h
          exact absurd h (by simp)
      | cons p ps =>
        rw [paddleGo] at h
        by_cases ht : text = []
        · rw [if_pos ht] at h
          obtain ⟨box2, text2, conf2, p2, ps2, hmem, hrest⟩ := ih (i + 1) rows h row hrow
          exact ⟨box2, text2, conf2, p2, ps2, List.mem_cons_of_mem _ hmem, hrest⟩
        · rw [if_neg ht] at h
          dsimp only at h
          cases htail : paddleGo (i + 1) rest with
          | error e =>
            rw [htail] at h
            exact absurd h (by simp)
          | ok tail =>
            rw [htail] at h
            dsimp only at h
            injection h with h
            subst h
            rcases List.mem_cons.mp hrow with hrow1 | hrow2
            · subst hrow1
              exact ⟨p :: ps, text, conf, p, ps, List.mem_cons_self _ _, rfl, ht,
                rfl, rfl, rfl, rfl, rfl, rfl⟩
            · obtain ⟨box2, text2, conf2, p2, ps2, hmem, hrest⟩ :=
                ih (i + 1) tail htail row hrow2
              exact ⟨box2, text2, conf2, p2, ps2, List.mem_cons_of_mem _ hmem, hrest⟩

/-! Helper lemmas about the page loop and extraction. -/

lemma aggregatePages_error {Img : Type} (call : Img → Except PyStr (List RowFrag))
    (name : PyStr) :
    ∀ (pre : List (Nat × Img)) (p : Nat) (im : Img) (post : List (Nat × Img)) (msg : PyStr),
      (∀ x ∈ pre, ∃ rws, call x.2 = Except.ok rws) →
      call im = Except.error msg →
      aggregatePages call name (pre ++ (p, im) :: post) =
        Except.error (RunErr.ocrFailed p msg) := by
  intro pre
  induction pre with
  | nil =>
    intro p im post msg _ herr
    rw [List.nil_append, aggregatePages, herr]
  | cons a pre' ih =>
    intro p im post msg hok herr
    obtain ⟨page, img⟩ := a
    obtain ⟨rws, hrws⟩ := hok (page, img) (List.mem_cons_self _ _)
    have hok' : ∀ x ∈ pre', ∃ rws, call x.2 = Except.ok rws :=
      fun x hx => hok x (List.mem_cons_of_mem _ hx)
    rw [List.cons_append, aggregatePages, hrws, ih p im post msg hok' herr]

lemma aggregatePages_all_empty {Img : Type} (call : Img → Except PyStr (List RowFrag))
    (name : PyStr) :
    ∀ (images : List (Nat × Img)),
      (∀ x ∈ images, call x.2 = Except.ok []) →
      aggregatePages call name images = Except.ok [] := by
  intro images
  induction images with
  | nil => intro _; rw [aggregatePages]
  | cons a rest ih =>
    intro hall
    obtain ⟨page, img⟩ := a
    have h1 : call img = Except.ok [] := hall (page, img) (List.mem_cons_self _ _)
    have h2 : aggregatePages call name rest = Except.ok [] :=
      ih fun x hx => hall x (List.mem_cons_of_mem _ hx)
    rw [aggregatePages, h1, h2]
    rfl

lemma tiffGo_length {Img : Type} (rgb : Img → Img) :
    ∀ (frames : List Img) (i : Nat), (tiffGo rgb i frames).length = frames.length := by
  intro frames
  induction frames with
  | nil => intro i; rfl
  | cons im rest ih =>
    intro i
    rw [tiffGo, List.length_cons, List.length_cons, ih]

lemma tiffGo_map_fst {Img : Type} (rgb : Img → Img) :
    ∀ (frames : List Img) (i : Nat),
      (tiffGo rgb i frames).map Prod.fst = List.range' (i + 1) frames.length := by
  intro frames
  induction frames with
  | nil => intro i; rfl
  | cons im rest ih =>
    intro i
    rw [tiffGo, List.map_cons, List.length_cons, List.range'_succ, ih]

lemma imagesFromFile_tiff {Img : Type} (rgb : Img → Img) (f : FileModel Img)
    (hex : f.fileExists = true)
    (hext : extLower f.path = ".tif".toList ∨ extLower f.path = ".tiff".toList) :
    imagesFromFile rgb f = (Except.ok (tiffGo rgb 0 f.tiffFrames),
      [IOEvent.statFile, IOEvent.openTiff]) := by
  have hpdf : extLower f.path ≠ ".pdf".toList := by
    rcases hext with h | h <;> rw [h] <;> decide
  rw [imagesFromFile]
  rw [hex]
  rw [if_neg (by simp)]
  rw [if_neg hpdf, if_pos hext]

lemma takeWhile_all {α : Type} (p : α → Bool) :
    ∀ (l : List α), (∀ c ∈ l, p c = true) → l.takeWhile p = l := by
  intro l
  induction l with
  | nil => intro _; rfl
  | cons a t ih =>
    intro h
    rw [List.takeWhile_cons, h a (List.mem_cons_self _ _),
      ih fun c hc => h c (List.mem_cons_of_mem _ hc)]
    simp

lemma basenameOf_eq_self {p : PyStr} (h : ∀ c ∈ p, c ≠ '/') : basenameOf p = p := by
  rw [basenameOf, takeWhile_all _ _ (by
    intro c hc
    have := h c (List.mem_reverse.mp hc)
    simpa [bne_iff_ne] using this), List.reverse_reverse]

lemma dropWhile_cons_neg {α : Type} (p : α → Bool) {a : α} (l : List α)
    (h : p a = false) : (a :: l).dropWhile p = a :: l := by
  rw [List.dropWhile_cons, h]
  simp

lemma extOf_append_ext (t : PyStr) (ht : t ≠ []) (h : ∀ c ∈ t, c ≠ '.' ∧ c ≠ '/')
    (e : PyStr) (he : ∀ c ∈ e, c ≠ '.' ∧ c ≠ '/') :
    extOf (t ++ '.' :: e) = '.' :: e := by
  have hnoslash : ∀ c ∈ t ++ '.' :: e, c ≠ '/' := by
    intro c hc
    rcases List.mem_append.mp hc with hc | hc
    · exact (h c hc).2
    · rcases List.mem_cons.mp hc with rfl | hc
      · decide
      · exact (he c hc).2
  rw [extOf]
  rw [basenameOf_eq_self hnoslash]
  obtain ⟨c0, t', rfl⟩ := List.exists_cons_of_ne_nil ht
  have hc0 : (c0 == '.') = false := by
    have := (h c0 (List.mem_cons_self _ _)).1
    simpa using this
  rw [List.cons_append]
  rw [dropWhile_cons_neg (fun c => c == '.') (t' ++ '.' :: e) hc0]
  rw [if_pos (by
    apply List.any_eq_true.mpr
    refine ⟨'.', ?_, by decide⟩
    exact List.mem_cons_of_mem _ (List.mem_append.mpr (Or.inr (List.mem_cons_self _ _))))]
  rw [List.reverse_cons, List.reverse_append, List.reverse_cons]
  rw [List.append_assoc, List.append_assoc]
  rw [List.takeWhile_append_of_pos (by
    intro a ha
    have := (he a (List.mem_reverse.mp ha)).1
    simpa [bne_iff_ne] using this)]
  rw [List.singleton_append, List.takeWhile_cons]
  norm_num

/-! Claim theorems. -/

/-- C1, amended.  The claim as stated is false (see `c1_counterexample`): only
the layout-engine variant strips text.  What holds is: every row produced by
`_ocr_tesseract` has `line_text` that is stripped and non-empty after
stripping; every row produced by `_ocr_paddle` has non-empty `line_text`, but
that text is kept verbatim (whitespace-only text is not dropped). -/
theorem c1_amended :
    (∀ (n : Nat) (d : TessData n), ∀ row ∈ _ocr_tesseract d,
      pyStrip row.line_text ≠ [] ∧ row.line_text = pyStrip row.line_text) ∧
    (∀ (lines : List PaddleLine) (rows : List RowFrag),
      _ocr_paddle lines = Except.ok rows → ∀ row ∈ rows, row.line_text ≠ []) := by
  constructor
  · intro n d row hrow
    obtain ⟨i, hne, hrow2⟩ := tesseract_mem hrow
    subst hrow2
    dsimp only
    exact ⟨by rw [pyStrip_idem]; exact hne, (pyStrip_idem _).symm⟩
  · intro lines rows h row hrow
    obtain ⟨box, text, conf, p, ps, hmem, hbox, htext, hlt, hrest⟩ :=
      paddleGo_rows lines 0 rows h row hrow
    rw [hlt]
    exact htext

/-- C1 counterexample: a detector-recognizer detection whose engine-reported
text is the whitespace-only string " " produces a row (with `line_text` " ",
which is empty after stripping), refuting the claim that whitespace-only rows
never appear in the adapter output. -/
theorem c1_counterexample :
    _ocr_paddle [wsLine] = Except.ok [wsRow] ∧ wsRow.line_text = [' '] ∧
      pyStrip [' '] = [] := by
  refine ⟨by decide, rfl, by decide⟩

/-- C1 witness: the amended theorem applied to concrete adapter inputs. -/
theorem c1_witness :
    (sampleTessRow ∈ _ocr_tesseract sampleTess ∧ pyStrip sampleTessRow.line_text ≠ []) ∧
    (_ocr_paddle [detLineA] = Except.ok [detRowA] ∧ detRowA.line_text ≠ []) :=
  ⟨⟨by decide, (c1_amended.1 1 sampleTess sampleTessRow (by decide)).1⟩,
   ⟨by decide, c1_amended.2 [detLineA] [detRowA] (by decide) detRowA (by decide)⟩⟩

/-- C4, amended.  The claim as stated is false (see `c4_counterexample`)
because the code truncates with `int(...)`: the box is the integer-truncated
axis-aligned envelope `x = int(min xs)`, `y = int(min ys)`,
`w = int(max xs - x)`, `h = int(max ys - y)`.  Width and height are always
non-negative, but width (resp. height) can be 0 without all the polygon's
x (resp. y) coordinates being equal — whenever the envelope spans less than
one unit past the truncated minimum. -/
theorem c4_amended :
    ∀ (lines : List PaddleLine) (rows : List RowFrag),
      (∀ box text conf, PaddleLine.det box text conf ∈ lines →
        ∀ pt ∈ box, 0 < pt.1.den ∧ 0 < pt.2.den) →
      _ocr_paddle lines = Except.ok rows →
      ∀ row ∈ rows, (0 ≤ row.width ∧ 0 ≤ row.height) ∧
        ∃ box text conf p ps, PaddleLine.det box text conf ∈ lines ∧ box = p :: ps ∧
          row.x = pyInt (pfMinList p.1 (ps.map Prod.fst)) ∧
          row.y = pyInt (pfMinList p.2 (ps.map Prod.snd)) ∧
          row.width = pyInt (pfSubInt (pfMaxList p.1 (ps.map Prod.fst)) row.x) ∧
          row.height = pyInt (pfSubInt (pfMaxList p.2 (ps.map Prod.snd)) row.y) := by
  intro lines rows hden h row hrow
  obtain ⟨box, text, conf, p, ps, hmem, hbox, htext, hlt, hconf, hx, hy, hw, hh⟩ :=
    paddleGo_rows lines 0 rows h row hrow
  subst hbox
  have hp : 0 < p.1.den ∧ 0 < p.2.den := hden _ _ _ hmem p (List.mem_cons_self _ _)
  have hps1 : ∀ y ∈ ps.map Prod.fst, 0 < y.den := by
    intro y hy
    obtain ⟨pt, hpt, rfl⟩ := List.mem_map.mp hy
    exact (hden _ _ _ hmem pt (List.mem_cons_of_mem _ hpt)).1
  have hps2 : ∀ y ∈ ps.map Prod.snd, 0 < y.den := by
    intro y hy
    obtain ⟨pt, hpt, rfl⟩ := List.mem_map.mp hy
    exact (hden _ _ _ hmem pt (List.mem_cons_of_mem _ hpt)).2
  refine ⟨⟨?_, ?_⟩, p :: ps, text, conf, p, ps, hmem, rfl, hx, hy,
    by rw [hx]; exact hw, by rw [hy]; exact hh⟩
  · rw [hw]
    exact paddle_side_nonneg p.1 (ps.map Prod.fst) hp.1 hps1
  · rw [hh]
    exact paddle_side_nonneg p.2 (ps.map Prod.snd) hp.2 hps2

/-- C4 counterexample: a detection whose polygon has the two distinct
x-coordinates 1/2 and 3/4 still yields width 0 after `int` truncation
(x = int(1/2) = 0, w = int(3/4 - 0) = 0), refuting "width equals 0 only when
all polygon points share an x coordinate". -/
theorem c4_counterexample :
    _ocr_paddle [cex4Line] = Except.ok [cex4Row] ∧ cex4Row.width = 0 ∧
      pfEq ⟨1, 2⟩ ⟨3, 4⟩ = false ∧ toRat ⟨1, 2⟩ ≠ toRat ⟨3, 4⟩ := by
  refine ⟨by decide, by decide, by decide, ?_⟩
  rw [toRat, toRat]
  norm_num

/-- C4 witness: the amended theorem applied to the concrete detection. -/
theorem c4_witness : 0 ≤ cex4Row.width ∧ 0 ≤ cex4Row.height :=
  (c4_amended [cex4Line] [cex4Row]
    (by
      intro box text conf hmem pt hpt
      simp only [List.mem_singleton, cex4Line, PaddleLine.det.injEq] at hmem
      obtain ⟨rfl, rfl, rfl⟩ := hmem
      simp only [List.mem_cons, List.mem_singleton] at hpt
      rcases hpt with rfl | rfl | h
      · exact ⟨by decide, by decide⟩
      · exact ⟨by decide, by decide⟩
      · simp at h)
    (by decide) cex4Row (by decide)).1

/-- C7: for rows produced by either adapter the confidence is absent or lies
in [0,100], assuming the engines report confidences in that range (their
documented contract); and in the layout-engine variant the sentinel "-1"
entry maps to absent confidence (the row built from a sentinel index has
`confidence = none`). -/
theorem c7_confidence :
    (∀ (n : Nat) (d : TessData n),
      (∀ i, d.conf i = ConfEntry.sentinel ∨
        ∃ q, d.conf i = ConfEntry.val q ∧ 0 ≤ q ∧ q ≤ 100) →
      ∀ row ∈ _ocr_tesseract d,
        (row.confidence = none ∨ ∃ q, row.confidence = some q ∧ 0 ≤ q ∧ q ≤ 100) ∧
        (∀ i : Fin n, d.conf i = ConfEntry.sentinel → row.line_number = i.1 →
          row.confidence = none)) ∧
    (∀ (lines : List PaddleLine) (rows : List RowFrag),
      (∀ box text conf, PaddleLine.det box text conf ∈ lines → 0 ≤ conf ∧ conf ≤ 100) →
      _ocr_paddle lines = Except.ok rows →
      ∀ row ∈ rows, row.confidence = none ∨
        ∃ q, row.confidence = some q ∧ 0 ≤ q ∧ q ≤ 100) := by
  constructor
  · intro n d hconf row hrow
    obtain ⟨i, hne, hrow2⟩ := tesseract_mem hrow
    subst hrow2
    constructor
    · rcases hconf i with h | ⟨q, hq, hq1, hq2⟩
      · left
        dsimp only
        rw [h]
        rfl
      · right
        refine ⟨q, ?_, hq1, hq2⟩
        dsimp only
        rw [hq]
        rfl
    · intro j hj hline
      dsimp only at hline ⊢
      have hij : i = j := Fin.eq_of_val_eq hline
      rw [hij, hj]
      rfl
  · intro lines rows hconf h row hrow
    obtain ⟨box, text, conf, p, ps, hmem, hbox, htext, hlt, hconfeq, hrest⟩ :=
      paddleGo_rows lines 0 rows h row hrow
    right
    exact ⟨conf, hconfeq, (hconf box text conf hmem).1, (hconf box text conf hmem).2⟩

/-- C7 witness: the theorem applied to concrete adapter inputs — the sentinel
entry of `sampleTess` yields an absent confidence, and the concrete paddle
detection yields a confidence in range. -/
theorem c7_witness :
    (sampleTessRow ∈ _ocr_tesseract sampleTess ∧ sampleTessRow.confidence = none) ∧
    (detRowA.confidence = none ∨ ∃ q, detRowA.confidence = some q ∧ 0 ≤ q ∧ q ≤ 100) :=
  ⟨⟨by decide,
    (c7_confidence.1 1 sampleTess (fun _ => Or.inl rfl) sampleTessRow (by decide)).2
      ⟨0, by decide⟩ rfl rfl⟩,
   c7_confidence.2 [detLineA] [detRowA]
     (by
       intro box text conf hmem
       simp only [List.mem_singleton, detLineA, PaddleLine.det.injEq] at hmem
       obtain ⟨rfl, rfl, rfl⟩ := hmem
       constructor <;> norm_num)
     (by decide) detRowA (by decide)⟩

/-- C2: persistence is all-or-nothing.  When extraction and the per-page OCR
loop succeed with batch `all_results`, committing successfully persists
exactly the whole batch and returns its size as the inserted count; if the
bulk insert or the commit raises, the rollback leaves the committed state
unchanged (zero rows of the batch persisted) and the exception is re-raised. -/
theorem c2_persistence_atomic {Img : Type} (rgb : Img → Img) (f : FileModel Img)
    (tessCall paddleCall : Img → Except PyStr (List RowFrag)) (engine : SupportedEngine)
    (name : PyStr) (st : DBState) (images : List (Nat × Img)) (batch : List TaggedRow)
    (h1 : (imagesFromFile rgb f).1 = Except.ok images)
    (h2 : aggregatePages (runPage tessCall paddleCall engine) name images = Except.ok batch) :
    (run_ocr_on_file rgb f tessCall paddleCall engine name true DBBehavior.ok st =
      (Except.ok (batch.length, images.length), ⟨st.committed ++ batch.map toDbRow⟩)) ∧
    (batch ≠ [] → ∀ b, b = DBBehavior.insertRaises ∨ b = DBBehavior.commitRaises →
      run_ocr_on_file rgb f tessCall paddleCall engine name true b st =
        (Except.error RunErr.dbError, st)) := by
  constructor
  · rw [run_ocr_on_file, h1]
    dsimp only
    rw [h2]
    dsimp only
    by_cases hb : batch = []
    · subst hb
      rw [if_neg (by simp)]
      obtain ⟨committed⟩ := st
      simp
    · rw [if_pos ⟨rfl, hb⟩]
  · intro hb b hbcase
    rw [run_ocr_on_file, h1]
    dsimp only
    rw [h2]
    dsimp only
    rw [if_pos ⟨rfl, hb⟩]
    rcases hbcase with rfl | rfl <;> rfl

/-- C2 witness: the theorem applied to a concrete one-page document with one
detected row, under a succeeding and a raising database session. -/
theorem c2_witness :
    run_ocr_on_file (fun x : Nat => x) imgFileTiff tessOkCall paddleNoCall
        SupportedEngine.tesseract "a.tiff".toList true DBBehavior.ok ⟨[]⟩ =
      (Except.ok (1, 1), ⟨[⟨"a.tiff".toList, 1, 0, ['h', 'i'], 1, 2, 3, 4⟩]⟩) ∧
    run_ocr_on_file (fun x : Nat => x) imgFileTiff tessOkCall paddleNoCall
        SupportedEngine.tesseract "a.tiff".toList true DBBehavior.insertRaises ⟨[]⟩ =
      (Except.error RunErr.dbError, ⟨[]⟩) := by
  have h := c2_persistence_atomic (fun x : Nat => x) imgFileTiff tessOkCall paddleNoCall
    SupportedEngine.tesseract "a.tiff".toList ⟨[]⟩ [(1, 7)]
    [⟨⟨0, ['h', 'i'], none, 1, 2, 3, 4⟩, "a.tiff".toList, 1⟩] (by decide) (by decide)
  exact ⟨h.1, h.2 (by decide) DBBehavior.insertRaises (Or.inl rfl)⟩

/-- C5: if the OCR adapter raises on some page (all earlier pages having
succeeded), `run_ocr_on_file` re-raises a failure wrapped with that page's
number and the database state is untouched — no rows from any page are
persisted, because persistence happens only after all pages succeed. -/
theorem c5_page_failure_aborts {Img : Type} (rgb : Img → Img) (f : FileModel Img)
    (tessCall paddleCall : Img → Except PyStr (List RowFrag)) (engine : SupportedEngine)
    (name : PyStr) (hasDb : Bool) (b : DBBehavior) (st : DBState)
    (images pre post : List (Nat × Img)) (p : Nat) (im : Img) (msg : PyStr)
    (h1 : (imagesFromFile rgb f).1 = Except.ok images)
    (h2 : images = pre ++ (p, im) :: post)
    (h3 : ∀ x ∈ pre, ∃ rws, runPage tessCall paddleCall engine x.2 = Except.ok rws)
    (h4 : runPage tessCall paddleCall engine im = Except.error msg) :
    run_ocr_on_file rgb f tessCall paddleCall engine name hasDb b st =
      (Except.error (RunErr.ocrFailed p msg), st) := by
  subst h2
  rw [run_ocr_on_file, h1]
  dsimp only
  rw [aggregatePages_error _ name pre p im post msg h3 h4]

/-- C5 witness: the theorem applied to a two-page document whose second page
raises; page 1 succeeded but nothing is persisted. -/
theorem c5_witness :
    run_ocr_on_file (fun x : Nat => x) imgFileTiffTwo tessFailCall paddleNoCall
        SupportedEngine.tesseract "c.tiff".toList true DBBehavior.ok ⟨[]⟩ =
      (Except.error (RunErr.ocrFailed 2 ['b', 'o', 'o', 'm']), ⟨[]⟩) :=
  c5_page_failure_aborts (fun x : Nat => x) imgFileTiffTwo tessFailCall paddleNoCall
    SupportedEngine.tesseract "c.tiff".toList true DBBehavior.ok ⟨[]⟩
    [(1, 7), (2, 8)] [(1, 7)] [] 2 8 ['b', 'o', 'o', 'm'] (by decide) rfl
    (by
      intro x hx
      simp only [List.mem_singleton] at hx
      subst hx
      exact ⟨[], rfl⟩)
    rfl

/-- C6: when every page yields zero OCR rows, `run_ocr_on_file` performs no
insert (the database state is unchanged for every session behavior), raises
nothing, and returns inserted count 0 together with the page count. -/
theorem c6_empty_batch {Img : Type} (rgb : Img → Img) (f : FileModel Img)
    (tessCall paddleCall : Img → Except PyStr (List RowFrag)) (engine : SupportedEngine)
    (name : PyStr) (hasDb : Bool) (b : DBBehavior) (st : DBState)
    (images : List (Nat × Img))
    (h1 : (imagesFromFile rgb f).1 = Except.ok images)
    (h2 : ∀ x ∈ images, runPage tessCall paddleCall engine x.2 = Except.ok []) :
    run_ocr_on_file rgb f tessCall paddleCall engine name hasDb b st =
      (Except.ok (0, images.length), st) := by
  rw [run_ocr_on_file, h1]
  dsimp only
  rw [aggregatePages_all_empty _ name images h2]
  dsimp only
  rw [if_neg (by simp)]

/-- C6 witness: the theorem applied to a one-page document detecting no rows. -/
theorem c6_witness :
    run_ocr_on_file (fun x : Nat => x) imgFileTiff tessOkCall paddleNoCall
        SupportedEngine.paddle "a.tiff".toList true DBBehavior.ok ⟨[]⟩ =
      (Except.ok (0, 1), ⟨[]⟩) :=
  c6_empty_batch (fun x : Nat => x) imgFileTiff tessOkCall paddleNoCall
    SupportedEngine.paddle "a.tiff".toList true DBBehavior.ok ⟨[]⟩ [(1, 7)] (by decide)
    (by
      intro x hx
      simp only [List.mem_singleton] at hx
      subst hx
      rfl)

/-- C3: for a TIFF input with N frames, extraction succeeds (the end-of-frames
`EOFError` terminates the loop normally instead of propagating) and returns
exactly N pairs whose page numbers are `1..N` in ascending contiguous order
(the internal iteration being 0-based). -/
theorem c3_tiff_pages {Img : Type} (rgb : Img → Img) (f : FileModel Img)
    (hex : f.fileExists = true)
    (hext : extLower f.path = ".tif".toList ∨ extLower f.path = ".tiff".toList) :
    (imagesFromFile rgb f).1.map (List.map Prod.fst) =
      Except.ok (List.range' 1 f.tiffFrames.length) ∧
    (imagesFromFile rgb f).1.map List.length = Except.ok f.tiffFrames.length := by
  rw [imagesFromFile_tiff rgb f hex hext]
  constructor
  · simp [Except.map, tiffGo_map_fst]
  · simp [Except.map, tiffGo_length]

/-- C3 witness: the theorem applied to a concrete existing two-frame TIFF. -/
theorem c3_witness :
    (imagesFromFile (fun x : Nat => x) imgFileTiff2).1.map (List.map Prod.fst) =
      Except.ok [1, 2] ∧
    (imagesFromFile (fun x : Nat => x) imgFileTiff2).1.map List.length = Except.ok 2 :=
  c3_tiff_pages (fun x : Nat => x) imgFileTiff2 rfl (Or.inl (by decide))

/-- C8, amended.  The claim as stated is false (see `c8_counterexample`):
the existence check runs first, so a nonexistent path with an unsupported
extension raises `FileNotFoundError`, not the unsupported-format error.  What
holds: for every existing path whose extension is neither `.pdf` nor
`.tif`/`.tiff`, `_images_from_file` fails with the unsupported-format error
after only the existence stat — the file is never opened or read (the I/O
trace is exactly the stat). -/
theorem c8_amended {Img : Type} (rgb : Img → Img) (f : FileModel Img)
    (hex : f.fileExists = true)
    (h1 : extLower f.path ≠ ".pdf".toList)
    (h2 : extLower f.path ≠ ".tif".toList)
    (h3 : extLower f.path ≠ ".tiff".toList) :
    imagesFromFile rgb f = (Except.error ExtractErr.unsupportedFormat, [IOEvent.statFile]) := by
  rw [imagesFromFile, hex]
  rw [if_neg (by simp)]
  rw [if_neg h1]
  rw [if_neg (not_or.mpr ⟨h2, h3⟩)]

/-- C8 counterexample: a nonexistent path with extension `.png` raises the
file-not-found error (after a stat), not the unsupported-format error,
refuting the claim for arbitrary input paths. -/
theorem c8_counterexample :
    imagesFromFile (fun x : Nat => x) pngMissing =
      (Except.error ExtractErr.fileNotFound, [IOEvent.statFile]) ∧
    ExtractErr.fileNotFound ≠ ExtractErr.unsupportedFormat :=
  ⟨by decide, by decide⟩

/-- C8 witness: the amended theorem applied to an existing `.png` path. -/
theorem c8_witness :
    imagesFromFile (fun x : Nat => x) pngExists =
      (Except.error ExtractErr.unsupportedFormat, [IOEvent.statFile]) :=
  c8_amended (fun x : Nat => x) pngExists rfl (by decide) (by decide) (by decide)

lemma extLower_append_pdf (t : PyStr) (ht : t ≠ []) (h : ∀ c ∈ t, c ≠ '.' ∧ c ≠ '/') :
    extLower (t ++ ".pdf".toList) = ".pdf".toList := by
  have he : (".pdf".toList : PyStr) = '.' :: ['p', 'd', 'f'] := rfl
  rw [extLower, he, extOf_append_ext t ht h ['p', 'd', 'f'] (by decide)]
  decide

lemma extLower_append_tiff (t : PyStr) (ht : t ≠ []) (h : ∀ c ∈ t, c ≠ '.' ∧ c ≠ '/') :
    extLower (t ++ ".tiff".toList) = ".tiff".toList := by
  have he : (".tiff".toList : PyStr) = '.' :: ['t', 'i', 'f', 'f'] := rfl
  rw [extLower, he, extOf_append_ext t ht h ['t', 'i', 'f', 'f'] (by decide)]
  decide

lemma imagesFromFile_pdf_trace {Img : Type} (rgb : Img → Img) (f : FileModel Img)
    (hex : f.fileExists = true) (hext : extLower f.path = ".pdf".toList) :
    (imagesFromFile rgb f).2 = [IOEvent.statFile, IOEvent.openPdf] := by
  rw [imagesFromFile, hex]
  rw [if_neg (by simp)]
  rw [hext, if_pos rfl]
  cases hp : f.pdfPages <;> rfl

/-- C10: for an upload passing the MIME allow-list, the processing path is
decided by the declared filename alone: the saved temp extension is `.pdf`
exactly when the lowercased filename ends in `.pdf`, and the extraction on
the temp path then takes the PDF branch; otherwise the temp extension is
`.tiff` and extraction takes the TIFF branch — in particular a payload
declared `application/pdf` whose filename does not end in `.pdf` is
processed as a TIFF. -/
theorem c10_filename_decides {Img : Type} (rgb : Img → Img)
    (ct filename tempId : PyStr) (pdfPages tiffFrames : List Img)
    (hct : mimeAccepted ct = true)
    (ht : tempId ≠ []) (htc : ∀ c ∈ tempId, c ≠ '.' ∧ c ≠ '/') :
    ((".pdf".toList.isSuffixOf (pyLower filename)) = false →
      chooseTempExt filename = ".tiff".toList ∧
      imagesFromFile rgb ⟨tempId ++ chooseTempExt filename, true, pdfPages, tiffFrames⟩ =
        (Except.ok (tiffGo rgb 0 tiffFrames), [IOEvent.statFile, IOEvent.openTiff])) ∧
    ((".pdf".toList.isSuffixOf (pyLower filename)) = true →
      chooseTempExt filename = ".pdf".toList ∧
      (imagesFromFile rgb ⟨tempId ++ chooseTempExt filename, true, pdfPages, tiffFrames⟩).2 =
        [IOEvent.statFile, IOEvent.openPdf]) := by
  constructor
  · intro hsuf
    have hext : chooseTempExt filename = ".tiff".toList := by
      rw [chooseTempExt, if_neg (by rw [hsuf]; exact Bool.false_ne_true)]
    refine ⟨hext, ?_⟩
    rw [hext]
    exact imagesFromFile_tiff rgb ⟨tempId ++ ".tiff".toList, true, pdfPages, tiffFrames⟩
      rfl (Or.inr (extLower_append_tiff tempId ht htc))
  · intro hsuf
    have hext : chooseTempExt filename = ".pdf".toList := by
      rw [chooseTempExt, if_pos hsuf]
    refine ⟨hext, ?_⟩
    rw [hext]
    exact imagesFromFile_pdf_trace rgb ⟨tempId ++ ".pdf".toList, true, pdfPages, tiffFrames⟩
      rfl (extLower_append_pdf tempId ht htc)

/-- C10 witness: the theorem applied to a payload declared `application/pdf`
whose filename "scan" does not end in `.pdf`: it is saved as `.tiff` and
processed by the TIFF branch. -/
theorem c10_witness :
    mimeAccepted "application/pdf".toList = true ∧
    chooseTempExt "scan".toList = ".tiff".toList ∧
    imagesFromFile (fun x : Nat => x)
        ⟨"ab".toList ++ ".tiff".toList, true, [3], [4]⟩ =
      (Except.ok (tiffGo (fun x : Nat => x) 0 [4]),
        [IOEvent.statFile, IOEvent.openTiff]) := by
  have h := (c10_filename_decides (fun x : Nat => x) "application/pdf".toList
    "scan".toList "ab".toList [3] [4] (by decide) (by decide) (by decide)).1 (by decide)
  exact ⟨by decide, h.1, h.2⟩

/-- C9: for a validated query (limit in [1,500], offset ≥ 0 — offsets are
naturals here — and page filter ≥ 1 when present), the response's total is
the count of all rows matching the file-name (and page) filter, and the items
are at most `limit` rows taken from the sorted matching rows starting at
`offset`, ordered by `(page_number, line_number)` ascending. -/
theorem c9_get_results (db : List OCRResultRow) (file_name : PyStr)
    (page_number : Option Nat) (limit offset : Nat)
    (hlim1 : 1 ≤ limit) (hlim2 : limit ≤ 500)
    (hpage : ∀ p, page_number = some p → 1 ≤ p) :
    (get_results db file_name page_number limit offset).1 =
      db.countP (specMatches file_name page_number) ∧
    (get_results db file_name page_number limit offset).2.length ≤ limit ∧
    List.Sorted pageLineLe (get_results db file_name page_number limit offset).2 ∧
    (∀ r ∈ (get_results db file_name page_number limit offset).2,
      specMatches file_name page_number r = true) ∧
    (∀ k, k < (get_results db file_name page_number limit offset).2.length →
      (get_results db file_name page_number limit offset).2[k]? =
        (List.insertionSort pageLineLe
          (db.filter (rowMatches file_name page_number)))[offset + k]?) := by
  have hmatch : ∀ r ∈ db,
      rowMatches file_name page_number r = specMatches file_name page_number r := by
    intro r hr
    cases page_number with
    | none => rfl
    | some p =>
      have hp : 1 ≤ p := hpage p rfl
      rw [rowMatches, specMatches]
      rw [if_neg (by omega)]
  refine ⟨?_, ?_, ?_, ?_, ?_⟩
  · show (db.filter (rowMatches file_name page_number)).length = _
    rw [List.filter_congr hmatch, ← List.countP_eq_length_filter]
  · show (((List.insertionSort pageLineLe
      (db.filter (rowMatches file_name page_number))).drop offset).take limit).length ≤ limit
    rw [List.length_take]
    exact min_le_left _ _
  · show List.Sorted pageLineLe (((List.insertionSort pageLineLe
      (db.filter (rowMatches file_name page_number))).drop offset).take limit)
    exact List.Pairwise.sublist ((List.take_sublist _ _).trans (List.drop_sublist _ _))
      (List.sorted_insertionSort pageLineLe _)
  · intro r hr
    have hr2 : r ∈ List.insertionSort pageLineLe
        (db.filter (rowMatches file_name page_number)) :=
      ((List.take_sublist _ _).trans (List.drop_sublist _ _)).subset hr
    have hr3 : r ∈ db.filter (rowMatches file_name page_number) :=
      (List.mem_insertionSort pageLineLe).mp hr2
    obtain ⟨hrdb, hrm⟩ := List.mem_filter.mp hr3
    rw [← hmatch r hrdb]
    exact hrm
  · intro k hk
    have hk2 : k < (((List.insertionSort pageLineLe
        (db.filter (rowMatches file_name page_number))).drop offset).take limit).length := hk
    rw [List.length_take] at hk2
    have hklim : k < limit := (Nat.lt_min.mp hk2).1
    show (((List.insertionSort pageLineLe
      (db.filter (rowMatches file_name page_number))).drop offset).take limit)[k]? = _
    rw [List.getElem?_take, if_pos hklim, List.getElem?_drop]

/-- C9 witness: the theorem applied to a concrete three-row table queried for
file "a" with the default limit 50 and offset 0. -/
theorem c9_witness :
    (get_results dbSample ['a'] none 50 0).1 = dbSample.countP (specMatches ['a'] none) ∧
    (get_results dbSample ['a'] none 50 0).2.length ≤ 50 ∧
    List.Sorted pageLineLe (get_results dbSample ['a'] none 50 0).2 ∧
    (∀ r ∈ (get_results dbSample ['a'] none 50 0).2, specMatches ['a'] none r = true) ∧
    (∀ k, k < (get_results dbSample ['a'] none 50 0).2.length →
      (get_results dbSample ['a'] none 50 0).2[k]? =
        (List.insertionSort pageLineLe (dbSample.filter (rowMatches ['a'] none)))[0 + k]?) :=
  c9_get_results dbSample ['a'] none 50 0 (by decide) (by decide)
    (fun p hp => Option.noConfusion hp)
